import Mathlib

/-!
Shallow embedding of `src/s3_handler.py` (class `S3Handler`), a thin facade
over an object-storage SDK (boto3).  The injected collaborators (`client`,
`resource`), the codec registry used by `bytes.decode` / the SDK's implicit
utf-8 encoding of `str` bodies, and the `os` / `os.path` standard-library
functions are external to the repository; they are modelled as explicit
parameters (function records) or, where their concrete behaviour matters,
as small reference models whose doc comments say what they stand for.

Machine conventions:
* bytes are `List Nat`;
* a boto3 response dict becomes a structure whose optional dict entries
  (`'Contents'`, `'CommonPrefixes'`, `'NextContinuationToken'`) become
  `Option` fields;
* fallible SDK calls return `Except ε _` for an abstract error type `ε`;
* Python generators become functions returning the full finite list of
  yielded values, driven by an explicit fuel parameter (the page loops of
  the two iterators are unbounded loops in the source).
-/

/-- One entry of a `'Contents'` list: a dict with a `'Key'` field. -/
structure KeyObject where
  key : String
deriving DecidableEq, Repr

/-- One entry of a `'CommonPrefixes'` list: a dict with a `'Prefix'` field
(the field is called `pfx` because of Lean keyword constraints). -/
structure CommonPrefixEntry where
  pfx : String
deriving DecidableEq, Repr

/-- Response of `list_objects_v2` in flat mode (no delimiter), as used by
`iterate_keys`: an optional `'Contents'` list and a mandatory
`'IsTruncated'` flag. -/
structure ListKeysResponse where
  contents : Option (List KeyObject)
  isTruncated : Bool
deriving DecidableEq, Repr

/-- Response of `list_objects_v2` in delimiter mode, as used by
`iterate_dirs`: an optional `'CommonPrefixes'` list and an optional
`'NextContinuationToken'`. -/
structure DirResponse where
  commonPrefixes : Option (List CommonPrefixEntry)
  nextContinuationToken : Option String
deriving DecidableEq, Repr

/-- Response of `head_object`: the `'ContentLength'` entry. -/
structure HeadObjectResponse where
  contentLength : Nat
deriving DecidableEq, Repr

/-- One entry of the `'Buckets'` list of a `list_buckets` response. -/
structure BucketEntry where
  name : String
deriving DecidableEq, Repr

/-- Response of `list_buckets`: the `'Buckets'` list. -/
structure ListBucketsResponse where
  buckets : List BucketEntry
deriving DecidableEq, Repr

/-- The injected boto3 s3 *client* (`self._client`), reduced to the calls the
facade makes.  `list_objects_v2` is split by keyword-argument shape: the
delimiter form takes `(Bucket, Prefix, Delimiter='/', ContinuationToken?)`
and the flat form takes `(Bucket, Prefix, MaxKeys, StartAfter)`.  Every call
may fail with an SDK error `ε`; the facade never inspects such errors. -/
structure S3Client (ε : Type) where
  list_objects_v2_delim : String → String → Option String → Except ε DirResponse
  list_objects_v2_flat : String → String → Nat → String → Except ε ListKeysResponse
  head_object : String → String → Except ε HeadObjectResponse
  list_buckets_call : Unit → Except ε ListBucketsResponse
  download_file_call : String → String → String → Except ε Unit

/-- The injected boto3 s3 *resource* (`self._resource`), reduced to the calls
the facade makes.  Resource operations read/update service state `σ`
(state-passing style), since `write/copy/delete` mutate the store. -/
structure S3Resource (ε σ : Type) where
  object_get_body : σ → String → String → Except ε (List Nat × σ)
  object_put : σ → String → String → List Nat → Except ε (Unit × σ)
  object_copy_from : σ → String → String → String → Except ε (Unit × σ)
  object_delete : σ → String → String → Except ε (Unit × σ)
  bucket_upload_file : σ → String → String → String → Except ε (Unit × σ)

/-- The Python codec machinery (`str.encode` / `bytes.decode`), external to
the repository: an encoder and decoder per codec name. -/
structure CodecRegistry where
  enc : String → String → List Nat
  dec : String → List Nat → String

/-- `S3Handler.read_file(bucket, key, decode='utf-8')`:
`content = resource.Object(bucket, key).get()['Body'].read()`, then
`if decode: content = content.decode(decode)`.  The result is bytes
(`Sum.inl`) when `decode` is the empty string, text (`Sum.inr`) otherwise. -/
def read_file (res : S3Resource ε σ) (reg : CodecRegistry) (st : σ)
    (bucket key decode : String) : Except ε ((List Nat ⊕ String) × σ) :=
  match res.object_get_body st bucket key with
  | .error e => .error e
  | .ok (content, st') =>
      if decode = "" then .ok (.inl content, st')
      else .ok (.inr (reg.dec decode content), st')

/-- `S3Handler.write_file(bucket, key, content)`:
`resource.Object(bucket, key).put(Body=content)`.  botocore encodes a `str`
body as utf-8 before the put, hence the `reg.enc "utf-8"`. -/
def write_file (res : S3Resource ε σ) (reg : CodecRegistry) (st : σ)
    (bucket key content : String) : Except ε (Unit × σ) :=
  res.object_put st bucket key (reg.enc "utf-8" content)

/-- `os.path.join(a, b)` (posix): if `b` starts with `'/'`, the result is
`b`; else if `a` is empty or ends with `'/'`, `a + b`; else `a + '/' + b`. -/
def os_path_join (a b : String) : String :=
  if b.data.head? = some '/' then b
  else if a = "" then a ++ b
  else if a.data.getLast? = some '/' then a ++ b
  else a ++ "/" ++ b

/-- `S3Handler.copy_file(src_bucket, src_key, trg_bucket, trg_key)`:
`src_full_key_path = os.path.join(src_bucket, src_key)` and then
`resource.Object(trg_bucket, trg_key).copy_from(CopySource=src_full_key_path)`. -/
def copy_file (res : S3Resource ε σ) (st : σ)
    (src_bucket src_key trg_bucket trg_key : String) : Except ε (Unit × σ) :=
  let src_full_key_path := os_path_join src_bucket src_key
  res.object_copy_from st trg_bucket trg_key src_full_key_path

/-- Local filesystem state, reduced to which paths exist (all that
`download_file` consults). -/
structure FS where
  pathExists : String → Bool

/-- Errors raised by the `os` module calls that `download_file` makes. -/
inductive OSError where
  | fileNotFound (path : String)
deriving DecidableEq, Repr

/-- `os.path.exists(p)`: `False` for the empty path, else filesystem lookup. -/
def os_path_exists (fs : FS) (p : String) : Bool :=
  if p = "" then false else fs.pathExists p

/-- Index just past the last `'/'` of the list, `0` when there is none
(this is Python's `p.rfind('/') + 1`). -/
def rfindSlashSucc : List Char → Nat
  | [] => 0
  | c :: rest =>
      let r := rfindSlashSucc rest
      if r = 0 then (if c = '/' then 1 else 0) else r + 1

/-- `os.path.dirname(p)` (posix): `head = p[:p.rfind('/')+1]`; strip trailing
slashes from `head` unless `head` is empty or consists only of slashes. -/
def os_path_dirname (p : String) : String :=
  let cs := p.data
  let head := cs.take (rfindSlashSucc cs)
  if head ≠ [] ∧ ¬ head.all (· = '/') then ⟨(head.reverse.dropWhile (· = '/')).reverse⟩
  else ⟨head⟩

/-- `os.makedirs(p)`: fails with `FileNotFoundError` on the empty path,
otherwise creates `p` (with intermediate directories; the model marks `p`
itself as existing). -/
def os_makedirs (fs : FS) (p : String) : Except OSError FS :=
  if p = "" then .error (.fileNotFound p)
  else .ok ⟨fun q => fs.pathExists q || q = p⟩

/-- `S3Handler.download_file(bucket, key, local_file_path)`:
`local_dir = os.path.dirname(local_file_path)`;
`if not os.path.exists(local_dir): os.makedirs(local_dir)`;
`client.download_file(bucket, key, local_file_path)`.
Filesystem errors surface as `Sum.inl`, SDK errors as `Sum.inr` (the sum is
the union of the two exception families; each carries its error intact). -/
def download_file (client : S3Client ε) (fs : FS)
    (bucket key local_file_path : String) : Except (OSError ⊕ ε) FS :=
  let local_dir := os_path_dirname local_file_path
  match (if os_path_exists fs local_dir then .ok fs else os_makedirs fs local_dir) with
  | .error e => .error (.inl e)
  | .ok fs' =>
      match client.download_file_call bucket key local_file_path with
      | .error e => .error (.inr e)
      | .ok _ => .ok fs'

/-- `S3Handler.upload_file(bucket, key, local_file_path)`:
`resource.Bucket(bucket).upload_file(local_file_path, key)`. -/
def upload_file (res : S3Resource ε σ) (st : σ)
    (bucket key local_file_path : String) : Except ε (Unit × σ) :=
  res.bucket_upload_file st bucket local_file_path key

/-- `S3Handler.delete_file(bucket, key)`:
`resource.Object(bucket, key).delete()`. -/
def delete_file (res : S3Resource ε σ) (st : σ) (bucket key : String) :
    Except ε (Unit × σ) :=
  res.object_delete st bucket key

/-- `S3Handler.get_file_size(bucket, key)`:
`client.head_object(Bucket=bucket, Key=key)['ContentLength']`. -/
def get_file_size (client : S3Client ε) (bucket key : String) : Except ε Nat :=
  match client.head_object bucket key with
  | .error e => .error e
  | .ok response => .ok response.contentLength

/-- `S3Handler.list_buckets()`:
`[b['Name'] for b in client.list_buckets()['Buckets']]`. -/
def list_buckets (client : S3Client ε) : Except ε (List String) :=
  match client.list_buckets_call () with
  | .error e => .error e
  | .ok buckets => .ok (buckets.buckets.map (·.name))

/-- Outcome of a run of one of the two generators: the list of yielded
strings on normal completion, the strings yielded before an uncaught SDK
exception or before the `keys[-1]` IndexError, or fuel exhaustion (the
artefact of bounding the source's unbounded page loop). -/
inductive DirsResult (ε : Type) where
  | ok (dirs : List String)
  | clientError (e : ε) (dirsYielded : List String)
  | fuelOut
deriving DecidableEq, Repr

/-- Generator sequencing for one `'CommonPrefixes'` entry of `iterate_dirs`:
given the outcome `acc` of the page so far, yield the entry `d` and then
everything the recursive descent `sub` yields; an earlier uncaught
exception (or fuel exhaustion) short-circuits, exactly as a raised
exception aborts the Python `for` loop. -/
def seqYieldDir (acc : DirsResult ε) (d : String) (sub : DirsResult ε) : DirsResult ε :=
  match acc with
  | .ok ds =>
      match sub with
      | .ok ds2 => .ok (ds ++ d :: ds2)
      | .clientError e ds2 => .clientError e (ds ++ d :: ds2)
      | .fuelOut => .fuelOut
  | other => other

/-- End of one `while` iteration of `iterate_dirs`: if processing the page's
common prefixes raised, propagate; otherwise loop again with the response's
`'NextContinuationToken'` when present (appending what the remaining pages
yield), and stop when it is absent. -/
def pageFinish (subResult : DirsResult ε) (tkOpt : Option String)
    (next : String → DirsResult ε) : DirsResult ε :=
  match subResult with
  | .ok ds =>
      match tkOpt with
      | some t =>
          match next t with
          | .ok ds2 => .ok (ds ++ ds2)
          | .clientError e ds2 => .clientError e (ds ++ ds2)
          | .fuelOut => .fuelOut
      | none => .ok ds
  | other => other

/-- `S3Handler.iterate_dirs(bucket, prefix)` (the third `String` argument is
the loop variable `continuation_token`, `''` initially).  Each loop
iteration calls `list_objects_v2` with `Delimiter='/'`, passing
`ContinuationToken=continuation_token` only when the token is non-empty
(Python truthiness); for each entry of `'CommonPrefixes'` it yields the
entry's `'Prefix'` and then recursively yields `iterate_dirs` of it
(`seqYieldDir`); it loops again iff the response has a
`'NextContinuationToken'` (`pageFinish`). -/
def iterate_dirs (client : S3Client ε) (bucket : String) :
    Nat → String → String → DirsResult ε
  | 0, _, _ => .fuelOut
  | fuel + 1, pre, continuation_token =>
      let resp :=
        if continuation_token ≠ "" then
          client.list_objects_v2_delim bucket pre (some continuation_token)
        else
          client.list_objects_v2_delim bucket pre none
      match resp with
      | .error e => .clientError e []
      | .ok response =>
          let subdirs := match response.commonPrefixes with
            | none => []
            | some l => l
          let subResult := subdirs.foldl (fun acc subdir =>
            seqYieldDir acc subdir.pfx (iterate_dirs client bucket fuel subdir.pfx ""))
            (DirsResult.ok [])
          pageFinish subResult response.nextContinuationToken
            (fun t => iterate_dirs client bucket fuel pre t)

/-- Outcome of a run of `iterate_keys`: yielded keys plus the number of
listing calls made, or the keys yielded up to an uncaught SDK error /
the `keys[-1]` IndexError, or fuel exhaustion. -/
inductive KeysResult (ε : Type) where
  | ok (keys : List String) (calls : Nat)
  | idxError (keysYielded : List String) (calls : Nat)
  | clientError (e : ε) (keysYielded : List String) (calls : Nat)
  | fuelOut
deriving DecidableEq, Repr

/-- `S3Handler.iterate_keys(bucket, prefix)` loop body.  The three trailing
arguments are the loop variable `start_after_key` (`''` initially), the keys
yielded so far, and the number of listing calls made so far (the last two
are instrumentation of the generator, both empty/zero initially).  Each
iteration calls `list_objects_v2` with `MaxKeys=10000` and
`StartAfter=start_after_key`, yields `[k['Key'] for k in
response.get('Contents', [])]`, sets `page_exist = response['IsTruncated']`
and, if another page exists, continues with `start_after_key = keys[-1]`
(an IndexError when that page's key list is empty). -/
def iterate_keys (client : S3Client ε) (bucket pre : String) :
    Nat → String → List String → Nat → KeysResult ε
  | 0, _, _, _ => .fuelOut
  | fuel + 1, start_after_key, acc, calls =>
      let keys_per_page := 10000
      match client.list_objects_v2_flat bucket pre keys_per_page start_after_key with
      | .error e => .clientError e acc (calls + 1)
      | .ok response =>
          let keys := ((match response.contents with
            | none => []
            | some l => l : List KeyObject)).map (·.key)
          let page_exist := response.isTruncated
          if page_exist then
            match keys.getLast? with
            | none => .idxError (acc ++ keys) (calls + 1)
            | some last => iterate_keys client bucket pre fuel last (acc ++ keys) (calls + 1)
          else .ok (acc ++ keys) (calls + 1)

/-!  Reference model of the storage service, used to instantiate the client
and resource records for the whole-bucket claims.  A bucket's contents are a
list of keys (flat keyspace); S3 lists keys in ascending lexicographic
order, so the claims that need real listings assume the key list sorted. -/

/-- Flat (no-delimiter) `list_objects_v2` over a fixed bucket `ks`:
return, in order, up to `maxKeys` keys that extend the requested key filter
and come strictly after `startAfter`; `IsTruncated` is set iff further
matching keys remain beyond the returned page.  (S3 omits `'Contents'`
when the page is empty.) -/
def listKeysService (ks : List String) (pre : String) (maxKeys : Nat)
    (startAfter : String) : ListKeysResponse :=
  let matching := ks.filter (fun k => pre.data.isPrefixOf k.data && decide (startAfter < k))
  let page := matching.take maxKeys
  { contents := if page = [] then none else some (page.map (fun k => ⟨k⟩))
    isTruncated := decide (maxKeys < matching.length) }

/-- Client whose flat listing is served from the fixed bucket `ks` and whose
other calls are unused. -/
def keysClientOfBucket (ks : List String) : S3Client Unit where
  list_objects_v2_delim := fun _ _ _ => .error ()
  list_objects_v2_flat := fun _ pre maxKeys startAfter =>
    .ok (listKeysService ks pre maxKeys startAfter)
  head_object := fun _ _ => .error ()
  list_buckets_call := fun _ => .error ()
  download_file_call := fun _ _ _ => .error ()

/-- First-occurrence deduplication (S3 reports each common prefix once). -/
def dedupFirst (l : List String) : List String :=
  l.foldl (fun acc x => if x ∈ acc then acc else acc ++ [x]) []

/-- The distinct common prefixes of bucket `ks` under the key filter `pre`
with delimiter `'/'`: for every key that extends `pre` and has a `'/'`
after it, the key up to and including that first `'/'`. -/
def commonPrefixesOf (ks : List String) (pre : String) : List String :=
  dedupFirst ((ks.filter (fun k => pre.data.isPrefixOf k.data)).filterMap (fun k =>
    let rest := k.data.drop pre.data.length
    if rest.contains '/' then
      some ⟨pre.data ++ rest.takeWhile (· ≠ '/') ++ ['/']⟩
    else none))

/-- Continuation token issued by the dir-listing service model: a non-empty
string encoding the index of the next page's first common prefix. -/
def encodeTok (n : Nat) : String := ⟨List.replicate (n + 1) 't'⟩

/-- Inverse of `encodeTok`. -/
def decodeTok (t : String) : Nat := t.data.length - 1

/-- Delimiter-mode `list_objects_v2` over a fixed bucket `ks`: pages of
`pageSize` common prefixes, `'CommonPrefixes'` omitted when the page is
empty, `'NextContinuationToken'` present iff prefixes remain beyond the
page. -/
def dirService (ks : List String) (pageSize : Nat) (pre : String)
    (tok : Option String) : DirResponse :=
  let all := commonPrefixesOf ks pre
  let start := match tok with
    | none => 0
    | some t => decodeTok t
  let page := (all.drop start).take pageSize
  { commonPrefixes := if page = [] then none else some (page.map (fun d => ⟨d⟩))
    nextContinuationToken :=
      if start + pageSize < all.length then some (encodeTok (start + pageSize)) else none }

/-- Client whose delimiter listing is served from the fixed bucket `ks`
(page size 1000, the `list_objects_v2` default) and whose other calls are
unused. -/
def dirClientOfBucket (ks : List String) : S3Client Unit where
  list_objects_v2_delim := fun _ pre tok => .ok (dirService ks 1000 pre tok)
  list_objects_v2_flat := fun _ _ _ _ => .error ()
  head_object := fun _ _ => .error ()
  list_buckets_call := fun _ => .error ()
  download_file_call := fun _ _ _ => .error ()

/-- Service-side object store: newest-first association list from
(bucket, key) to byte content. -/
def S3Store : Type := List ((String × String) × List Nat)

/-- Service-side lookup of an object's bytes. -/
def storeGet : S3Store → String → String → Option (List Nat)
  | [], _, _ => none
  | ((b', k'), v) :: rest, b, k =>
      if b' = b ∧ k' = k then some v else storeGet rest b k

/-- Errors of the reference service. -/
inductive S3Err where
  | noSuchKey (bucket key : String)
  | invalidCopySource (src : String)
deriving DecidableEq, Repr

/-- Parse an `x-amz-copy-source` string: an optional leading `'/'` is
dropped, then the part before the first `'/'` is the bucket and the part
after it is the key; no `'/'` or an empty bucket part is invalid. -/
def parseCopySource (s : String) : Option (String × String) :=
  let cs := if s.data.head? = some '/' then s.data.tail else s.data
  let b := cs.takeWhile (· ≠ '/')
  match cs.dropWhile (· ≠ '/') with
  | [] => none
  | _ :: key => if b = [] then none else some (⟨b⟩, ⟨key⟩)

/-- Reference model of the boto3 resource over `S3Store`: `get` reads the
stored bytes or fails with NoSuchKey; `put` stores the bytes; `copy_from`
parses `CopySource` and copies the source object's bytes to the target
location; `delete` removes the object; `upload_file` stores the local
file's bytes (`localRead` models the local filesystem read). -/
def modelResource (localRead : String → List Nat) : S3Resource S3Err S3Store where
  object_get_body := fun st b k =>
    match storeGet st b k with
    | some v => .ok (v, st)
    | none => .error (.noSuchKey b k)
  object_put := fun st b k v => .ok ((), ((b, k), v) :: st)
  object_copy_from := fun st tb tk src =>
    match parseCopySource src with
    | none => .error (.invalidCopySource src)
    | some (sb, sk) =>
        match storeGet st sb sk with
        | none => .error (.noSuchKey sb sk)
        | some v => .ok ((), ((tb, tk), v) :: st)
  object_delete := fun st b k => .ok ((), st.filter (fun e => ¬ (e.1.1 = b ∧ e.1.2 = k)))
  bucket_upload_file := fun st b path k => .ok ((), ((b, k), localRead path) :: st)

/-- A concrete byte codec for witnesses: code points as bytes.  (Only its
round-trip property is used; the utf-8 details live in the external SDK.) -/
def codePointReg : CodecRegistry where
  enc := fun _ s => s.data.map (·.toNat)
  dec := fun _ l => ⟨l.map Char.ofNat⟩

/-- Keys `"a"`, `"aa"`, `"aaa"`, ... — a strictly increasing key list of any
requested size, used as the concrete bucket of witnesses. -/
def mkKeys (n : Nat) : List String :=
  (List.range n).map (fun i => ⟨List.replicate (i + 1) 'a'⟩)

/-- Length of the longest key of the bucket. -/
def maxKeyLen (ks : List String) : Nat := (ks.map (·.length)).foldr Nat.max 0

/-- Modelled from the spec: "for each common prefix found, yield it, then
recursively descend one level deeper, depth-first" — the depth-first
pre-order enumeration of the virtual directory tree of bucket `ks` under a
starting point, against which `iterate_dirs` is compared (C5).  The fuel
argument only bounds the depth; it is irrelevant once it exceeds the
longest key length (`dirsSpec_stable`). -/
def dirsSpec (ks : List String) : Nat → String → List String
  | 0, _ => []
  | fuel + 1, pre => (commonPrefixesOf ks pre).flatMap (fun d => d :: dirsSpec ks fuel d)

/-- Client whose every call fails with the fixed SDK error `7` (witnesses). -/
def constErrClient : S3Client Nat where
  list_objects_v2_delim := fun _ _ _ => .error 7
  list_objects_v2_flat := fun _ _ _ _ => .error 7
  head_object := fun _ _ => .error 7
  list_buckets_call := fun _ => .error 7
  download_file_call := fun _ _ _ => .error 7

/-- Resource whose every call fails with the fixed SDK error `7` (witnesses). -/
def constErrRes : S3Resource Nat Unit where
  object_get_body := fun _ _ _ => .error 7
  object_put := fun _ _ _ _ => .error 7
  object_copy_from := fun _ _ _ _ => .error 7
  object_delete := fun _ _ _ => .error 7
  bucket_upload_file := fun _ _ _ _ => .error 7

/-- Client whose download call succeeds (witnesses). -/
def okDownloadClient : S3Client Unit where
  list_objects_v2_delim := fun _ _ _ => .error ()
  list_objects_v2_flat := fun _ _ _ _ => .error ()
  head_object := fun _ _ => .error ()
  list_buckets_call := fun _ => .error ()
  download_file_call := fun _ _ _ => .ok ()

/-- Client whose flat listing always answers a full non-truncated page of
exactly 10000 keys (witnesses: final page at the page-size limit). -/
def fullPageClient : S3Client Unit where
  list_objects_v2_delim := fun _ _ _ => .error ()
  list_objects_v2_flat := fun _ _ _ _ =>
    .ok { contents := some (List.replicate 10000 ⟨"k"⟩), isTruncated := false }
  head_object := fun _ _ => .error ()
  list_buckets_call := fun _ => .error ()
  download_file_call := fun _ _ _ => .error ()

/-- Client whose flat listing always answers a truncated single-key page
(witnesses). -/
def singleTruncClient : S3Client Unit where
  list_objects_v2_delim := fun _ _ _ => .error ()
  list_objects_v2_flat := fun _ _ _ _ =>
    .ok { contents := some [⟨"k"⟩], isTruncated := true }
  head_object := fun _ _ => .error ()
  list_buckets_call := fun _ => .error ()
  download_file_call := fun _ _ _ => .error ()

/-- Client whose flat listing always answers a truncated page with no
`'Contents'` at all (witnesses: the `keys[-1]` IndexError case). -/
def emptyTruncClient : S3Client Unit where
  list_objects_v2_delim := fun _ _ _ => .error ()
  list_objects_v2_flat := fun _ _ _ _ =>
    .ok { contents := none, isTruncated := true }
  head_object := fun _ _ => .error ()
  list_buckets_call := fun _ => .error ()
  download_file_call := fun _ _ _ => .error ()

/-- Client whose delimiter listing answers, on a token-less request, a page
with no common prefixes but a continuation token, and on a tokened request a
final empty page (witnesses: paging must continue on an empty page). -/
def emptyPageTokenClient : S3Client Unit where
  list_objects_v2_delim := fun _ _ tok =>
    .ok (match tok with
      | none => { commonPrefixes := none, nextContinuationToken := some "tt" }
      | some _ => { commonPrefixes := none, nextContinuationToken := none })
  list_objects_v2_flat := fun _ _ _ _ => .error ()
  head_object := fun _ _ => .error ()
  list_buckets_call := fun _ => .error ()
  download_file_call := fun _ _ _ => .error ()

/-!  Theorems. -/

/-- C4: for a bucket containing exactly the keys `a/b`, `a/c`, `d`,
`iterate_dirs` from the empty starting point yields exactly the single
directory `"a/"` (fuel 2 covers the one page plus the recursive descent),
and the recursive call on `"a/"` yields nothing further, since `a/b` and
`a/c` are leaf keys producing no common prefixes. -/
theorem iterate_dirs_abc_d (b : String) :
    iterate_dirs (dirClientOfBucket ["a/b", "a/c", "d"]) b 2 "" "" = .ok ["a/"]
    ∧ iterate_dirs (dirClientOfBucket ["a/b", "a/c", "d"]) b 1 "a/" "" = .ok [] :=
  ⟨rfl, rfl⟩

/-- C6: writing text content and then reading it back from the same bucket
and key with the same decoding yields the original string, for any codec
(such as utf-8) whose decoder inverts its encoder. -/
theorem write_then_read_roundtrip (localRead : String → List Nat)
    (reg : CodecRegistry) (st : S3Store) (bucket key content : String)
    (hreg : reg.dec "utf-8" (reg.enc "utf-8" content) = content) :
    ∀ st', write_file (modelResource localRead) reg st bucket key content = .ok ((), st') →
      read_file (modelResource localRead) reg st' bucket key "utf-8" =
        .ok (.inr content, st') := by
  intro st' hw
  have hst' : st' = ((bucket, key), reg.enc "utf-8" content) :: st := by
    simpa [write_file, modelResource] using hw.symm
  have hne : ("utf-8" : String) ≠ "" := by decide
  subst hst'
  simp [read_file, modelResource, storeGet, hne, hreg]

/-- Witness for C6 at codec `codePointReg`, content `"hi"`, empty store. -/
theorem write_then_read_roundtrip_witness :
    read_file (modelResource (fun _ => [])) codePointReg
      [(("b", "k"), [104, 105])] "b" "k" "utf-8" =
      .ok (.inr "hi", [(("b", "k"), [104, 105])]) :=
  write_then_read_roundtrip (fun _ => []) codePointReg [] "b" "k" "hi" (by decide)
    [(("b", "k"), [104, 105])] rfl

/-- C8: every facade operation surfaces a failure of the underlying
client/resource call unmodified — when the underlying SDK call answers the
error `e`, the operation's result carries exactly that `e`, with no
catching, wrapping or translation (for `download_file`, whose result type
is the union `OSError ⊕ ε` of the two exception families, the SDK error is
the untouched right component). -/
theorem all_ops_propagate_errors (ε σ : Type) (client : S3Client ε)
    (res : S3Resource ε σ) (reg : CodecRegistry) (st : σ) (fs : FS) (e : ε)
    (b k p sb sk tb tk s decd tok : String) (acc : List String)
    (calls fuel : Nat) :
    (res.object_get_body st b k = .error e → read_file res reg st b k decd = .error e)
    ∧ (res.object_put st b k (reg.enc "utf-8" p) = .error e →
        write_file res reg st b k p = .error e)
    ∧ (res.object_copy_from st tb tk (os_path_join sb sk) = .error e →
        copy_file res st sb sk tb tk = .error e)
    ∧ (os_path_exists fs (os_path_dirname p) = true →
        client.download_file_call b k p = .error e →
        download_file client fs b k p = .error (.inr e))
    ∧ (res.bucket_upload_file st b p k = .error e → upload_file res st b k p = .error e)
    ∧ (res.object_delete st b k = .error e → delete_file res st b k = .error e)
    ∧ (client.head_object b k = .error e → get_file_size client b k = .error e)
    ∧ (client.list_buckets_call () = .error e → list_buckets client = .error e)
    ∧ ((if tok ≠ "" then client.list_objects_v2_delim b k (some tok)
        else client.list_objects_v2_delim b k none) = .error e →
        iterate_dirs client b (fuel + 1) k tok = .clientError e [])
    ∧ (client.list_objects_v2_flat b k 10000 s = .error e →
        iterate_keys client b k (fuel + 1) s acc calls = .clientError e acc (calls + 1)) := by
  refine ⟨?_, ?_, ?_, ?_, ?_, ?_, ?_, ?_, ?_, ?_⟩
  · intro h; simp [read_file, h]
  · intro h; simp [write_file, h]
  · intro h; simp [copy_file, h]
  · intro hex h; simp [download_file, hex, h]
  · intro h; simp [upload_file, h]
  · intro h; simp [delete_file, h]
  · intro h; simp [get_file_size, h]
  · intro h; simp [list_buckets, h]
  · intro h; simp only [iterate_dirs]; rw [h]
  · intro h; simp only [iterate_keys]; rw [h]

/-- Witness for C8: a client/resource all of whose calls fail with the SDK
error `7`; every facade operation answers exactly `7`. -/
theorem all_ops_propagate_errors_witness :
    read_file constErrRes codePointReg () "b" "k" "utf-8" = .error 7
    ∧ write_file constErrRes codePointReg () "b" "k" "c" = .error 7
    ∧ copy_file constErrRes () "sb" "sk" "tb" "tk" = .error 7
    ∧ download_file constErrClient ⟨fun _ => true⟩ "b" "k" "a/p" = .error (.inr 7)
    ∧ upload_file constErrRes () "b" "k" "lp" = .error 7
    ∧ delete_file constErrRes () "b" "k" = .error 7
    ∧ get_file_size constErrClient "b" "k" = .error 7
    ∧ list_buckets constErrClient = .error 7
    ∧ iterate_dirs constErrClient "b" 1 "pre" "" = .clientError 7 []
    ∧ iterate_keys constErrClient "b" "pre" 1 "" [] 0 = .clientError 7 [] 1 := by
  refine ⟨?_, ?_, ?_, ?_, ?_, ?_, ?_, ?_, ?_, ?_⟩
  · exact (all_ops_propagate_errors Nat Unit constErrClient constErrRes codePointReg ()
      ⟨fun _ => true⟩ 7 "b" "k" "p" "sb" "sk" "tb" "tk" "s" "utf-8" "" [] 0 0).1 rfl
  · exact (all_ops_propagate_errors Nat Unit constErrClient constErrRes codePointReg ()
      ⟨fun _ => true⟩ 7 "b" "k" "c" "sb" "sk" "tb" "tk" "s" "utf-8" "" [] 0 0).2.1 rfl
  · exact (all_ops_propagate_errors Nat Unit constErrClient constErrRes codePointReg ()
      ⟨fun _ => true⟩ 7 "b" "k" "p" "sb" "sk" "tb" "tk" "s" "utf-8" "" [] 0 0).2.2.1 rfl
  · exact (all_ops_propagate_errors Nat Unit constErrClient constErrRes codePointReg ()
      ⟨fun _ => true⟩ 7 "b" "k" "a/p" "sb" "sk" "tb" "tk" "s" "utf-8" "" [] 0 0).2.2.2.1
      rfl rfl
  · exact (all_ops_propagate_errors Nat Unit constErrClient constErrRes codePointReg ()
      ⟨fun _ => true⟩ 7 "b" "k" "lp" "sb" "sk" "tb" "tk" "s" "utf-8" "" [] 0 0).2.2.2.2.1 rfl
  · exact (all_ops_propagate_errors Nat Unit constErrClient constErrRes codePointReg ()
      ⟨fun _ => true⟩ 7 "b" "k" "p" "sb" "sk" "tb" "tk" "s" "utf-8" "" [] 0 0).2.2.2.2.2.1 rfl
  · exact (all_ops_propagate_errors Nat Unit constErrClient constErrRes codePointReg ()
      ⟨fun _ => true⟩ 7 "b" "k" "p" "sb" "sk" "tb" "tk" "s" "utf-8" "" [] 0 0).2.2.2.2.2.2.1 rfl
  · exact (all_ops_propagate_errors Nat Unit constErrClient constErrRes codePointReg ()
      ⟨fun _ => true⟩ 7 "b" "k" "p" "sb" "sk" "tb" "tk" "s" "utf-8" "" [] 0 0).2.2.2.2.2.2.2.1 rfl
  · exact (all_ops_propagate_errors Nat Unit constErrClient constErrRes codePointReg ()
      ⟨fun _ => true⟩ 7 "b" "pre" "p" "sb" "sk" "tb" "tk" "s" "utf-8" "" [] 0 0).2.2.2.2.2.2.2.2.1 rfl
  · exact (all_ops_propagate_errors Nat Unit constErrClient constErrRes codePointReg ()
      ⟨fun _ => true⟩ 7 "b" "pre" "p" "sb" "sk" "tb" "tk" "" "utf-8" "" [] 0 0).2.2.2.2.2.2.2.2.2 rfl

/-- A list with no `'/'` has no last slash. -/
theorem rfindSlashSucc_eq_zero (cs : List Char) (h : cs.contains '/' = false) :
    rfindSlashSucc cs = 0 := by
  induction cs with
  | nil => rfl
  | cons c rest ih =>
      simp only [List.contains_cons, Bool.or_eq_false_iff, beq_eq_false_iff_ne] at h
      simp [rfindSlashSucc, ih h.2, Ne.symm h.1]

/-- `os.path.dirname` of a separator-free path is the empty string. -/
theorem os_path_dirname_of_no_slash (p : String) (h : p.data.contains '/' = false) :
    os_path_dirname p = "" := by
  simp [os_path_dirname, rfindSlashSucc_eq_zero p.data h]

/-- C10: `download_file` on a local path with no directory separator
computes the parent `""`, finds that `os.path.exists('')` is false, and
fails inside `os.makedirs('')` with `FileNotFoundError` — uniformly in the
client, i.e. before any storage-client call; and on a path whose parent
directory already exists it attempts no directory creation (the returned
filesystem is the unchanged `fs`) and proceeds directly to the client's
download call. -/
theorem download_file_parent_dir (p : String) :
    (p.data.contains '/' = false →
      ∀ (ε : Type) (client : S3Client ε) (fs : FS) (b k : String),
        download_file client fs b k p = .error (.inl (.fileNotFound "")))
    ∧ (∀ (ε : Type) (client : S3Client ε) (fs : FS) (b k : String),
        os_path_exists fs (os_path_dirname p) = true →
        download_file client fs b k p =
          match client.download_file_call b k p with
          | .error e => .error (.inr e)
          | .ok _ => .ok fs) := by
  constructor
  · intro h ε client fs b k
    simp [download_file, os_path_dirname_of_no_slash p h, os_path_exists, os_makedirs]
  · intro ε client fs b k hex
    simp [download_file, hex]

/-- Witness for C10: the separator-free path `"file.txt"` fails with
`FileNotFoundError('')` whatever the filesystem and client; the path
`"a/p"` with parent `"a"` existing downloads without touching the
filesystem. -/
theorem download_file_parent_dir_witness :
    download_file okDownloadClient ⟨fun _ => false⟩ "b" "k" "file.txt" =
      .error (.inl (.fileNotFound ""))
    ∧ download_file okDownloadClient ⟨fun _ => true⟩ "b" "k" "a/p" =
      .ok ⟨fun _ => true⟩ :=
  ⟨(download_file_parent_dir "file.txt").1 (by decide) Unit okDownloadClient
      ⟨fun _ => false⟩ "b" "k",
    ((download_file_parent_dir "a/p").2 Unit okDownloadClient
      ⟨fun _ => true⟩ "b" "k" rfl).trans rfl⟩

/-- C2: from any point of any run (any cursor `s`, yield accumulator and
call count), when the next listing response has `IsTruncated = false` the
key iteration yields that page's keys and stops with exactly one more
listing call — whatever the page's size, including exactly 10000 keys
(see the witness); and when `IsTruncated = true` (and the page is
non-empty) it continues with the page's last key as the new cursor.
Termination is thus decided by the truncation flag alone. -/
theorem iterate_keys_stops_iff_truncation (ε : Type) (client : S3Client ε)
    (b pre s : String) (acc : List String) (calls fuel : Nat)
    (r : ListKeysResponse)
    (hr : client.list_objects_v2_flat b pre 10000 s = .ok r) :
    (r.isTruncated = false →
      iterate_keys client b pre (fuel + 1) s acc calls =
        .ok (acc ++ (r.contents.getD []).map (·.key)) (calls + 1))
    ∧ (r.isTruncated = true →
      ∀ lk, ((r.contents.getD []).map (·.key)).getLast? = some lk →
        iterate_keys client b pre (fuel + 1) s acc calls =
          iterate_keys client b pre fuel lk
            (acc ++ (r.contents.getD []).map (·.key)) (calls + 1)) := by
  constructor
  · intro ht
    simp only [iterate_keys]
    rw [hr]
    cases hc : r.contents <;> simp [hc, ht]
  · intro ht lk hlk
    have hlk' : Option.map (fun x : KeyObject => x.key) (r.contents.getD []).getLast?
        = some lk := by rw [← List.getLast?_map]; exact hlk
    simp only [iterate_keys]
    rw [hr]
    cases hc : r.contents with
    | none => rw [hc] at hlk; simp at hlk
    | some l =>
        rw [hc] at hlk'
        simp only [Option.getD_some] at hlk'
        simp [hc, ht, hlk']

/-- Witness for C2: a final page holding exactly the page-size limit of
10000 keys with `IsTruncated = false` stops after that single call, and a
truncated single-key page continues with cursor `"k"`. -/
theorem iterate_keys_stops_iff_truncation_witness :
    iterate_keys fullPageClient "b" "" 1 "" [] 0 = .ok (List.replicate 10000 "k") 1
    ∧ iterate_keys singleTruncClient "b" "" 2 "" [] 0 =
        iterate_keys singleTruncClient "b" "" 1 "k" ["k"] 1 := by
  constructor
  · exact ((iterate_keys_stops_iff_truncation Unit fullPageClient "b" "" "" [] 0 0
      { contents := some (List.replicate 10000 ⟨"k"⟩), isTruncated := false } rfl).1
      rfl).trans (by simp only [Option.getD_some, List.map_replicate, List.nil_append])
  · exact ((iterate_keys_stops_iff_truncation Unit singleTruncClient "b" "" "" [] 0 1
      { contents := some [⟨"k"⟩], isTruncated := true } rfl).2 rfl "k" rfl).trans (by simp)

/-- C9: `iterate_keys` assumes every truncated page is non-empty.  When a
response has `IsTruncated = true` but no keys, the run stops at that page
with the out-of-bounds `keys[-1]` IndexError (after yielding nothing
further); and under the precondition that every truncated response of the
client carries at least one key, no run ever hits that IndexError. -/
theorem iterate_keys_truncated_empty_page (ε : Type) (client : S3Client ε)
    (b pre : String) :
    (∀ (s : String) (acc : List String) (calls fuel : Nat) (r : ListKeysResponse),
      client.list_objects_v2_flat b pre 10000 s = .ok r →
      r.isTruncated = true → r.contents.getD [] = [] →
      iterate_keys client b pre (fuel + 1) s acc calls = .idxError acc (calls + 1))
    ∧ ((∀ (s : String) (r : ListKeysResponse),
        client.list_objects_v2_flat b pre 10000 s = .ok r →
        r.isTruncated = true → r.contents.getD [] ≠ []) →
      ∀ (fuel : Nat) (s : String) (acc : List String) (calls : Nat)
        (l : List String) (n : Nat),
        iterate_keys client b pre fuel s acc calls ≠ .idxError l n) := by
  constructor
  · intro s acc calls fuel r hr ht hc
    simp only [iterate_keys]
    rw [hr]
    cases hco : r.contents with
    | none => simp [hco, ht]
    | some ks =>
        rw [hco] at hc
        simp only [Option.getD_some] at hc
        simp [hco, ht, hc]
  · intro hpre fuel
    induction fuel with
    | zero => intro s acc calls l n; simp [iterate_keys]
    | succ fuel ih =>
        intro s acc calls l n
        simp only [iterate_keys]
        cases hr : client.list_objects_v2_flat b pre 10000 s with
        | error e => simp
        | ok r =>
            cases ht : r.isTruncated with
            | false => simp [ht]
            | true =>
                have hne : r.contents.getD [] ≠ [] := hpre s r hr ht
                cases hco : r.contents with
                | none => rw [hco] at hne; simp at hne
                | some ks =>
                    rw [hco] at hne
                    simp only [Option.getD_some] at hne
                    cases hlast : ks.getLast? with
                    | none => exact absurd (List.getLast?_eq_none_iff.mp hlast) hne
                    | some ko => simp [hco, ht, hlast, ih]

/-- Witness for C9: a truncated page with no `'Contents'` stops with the
IndexError after one call; a client all of whose responses are
non-truncated never runs into the IndexError. -/
theorem iterate_keys_truncated_empty_page_witness :
    iterate_keys emptyTruncClient "b" "" 1 "" [] 0 = .idxError [] 1
    ∧ iterate_keys fullPageClient "b" "" 1 "" [] 0 ≠ .idxError [] 1 := by
  constructor
  · exact (iterate_keys_truncated_empty_page Unit emptyTruncClient "b" "").1
      "" [] 0 0 { contents := none, isTruncated := true } rfl rfl rfl
  · exact (iterate_keys_truncated_empty_page Unit fullPageClient "b" "").2
      (by intro s r hr ht; cases hr; cases ht) 1 "" [] 0 [] 1

/-- Evaluating `pageFinish` when the response carries no continuation
token: the page loop ends and the level's outcome is the page outcome. -/
theorem pageFinish_none (x : DirsResult ε) (next : String → DirsResult ε) :
    pageFinish x none next = x := by
  cases x <;> rfl

/-- Evaluating `pageFinish` on an empty page outcome with a continuation
token: the run continues exactly as the next page's run. -/
theorem pageFinish_ok_nil_some (t : String) (next : String → DirsResult ε) :
    pageFinish (.ok []) (some t) next = next t := by
  cases h : next t <;> simp [pageFinish, h]

/-- C3: at any page of any level of `iterate_dirs` (any prior token `tok`),
when the response's common-prefixes list is absent or empty but a
continuation token `t` is present, the traversal issues a further listing
call with that token (the run continues exactly as a run whose loop
variable is `t`); and it terminates paging at the level exactly when the
response carries no continuation token, in which case the result is the
processing of the current page's common prefixes alone. -/
theorem iterate_dirs_continuation (ε : Type) (client : S3Client ε)
    (b pre tok : String) (fuel : Nat) (r : DirResponse)
    (hr : (if tok ≠ "" then client.list_objects_v2_delim b pre (some tok)
           else client.list_objects_v2_delim b pre none) = .ok r) :
    (∀ t, (r.commonPrefixes = none ∨ r.commonPrefixes = some []) →
      r.nextContinuationToken = some t →
      iterate_dirs client b (fuel + 1) pre tok = iterate_dirs client b fuel pre t)
    ∧ (r.nextContinuationToken = none →
      iterate_dirs client b (fuel + 1) pre tok =
        (r.commonPrefixes.getD []).foldl (fun acc subdir =>
          seqYieldDir acc subdir.pfx (iterate_dirs client b fuel subdir.pfx ""))
          (DirsResult.ok [])) := by
  obtain ⟨cp, tk⟩ := r
  constructor
  · intro t hcp htk
    have htk' : tk = some t := htk
    subst htk'
    have hcp' : cp = none ∨ cp = some [] := hcp
    rcases hcp' with rfl | rfl <;>
      simp only [iterate_dirs, hr, List.foldl_nil, pageFinish_ok_nil_some]
  · intro htk
    have htk' : tk = none := htk
    subst htk'
    simp only [iterate_dirs, hr, pageFinish_none]
    cases cp <;> rfl

/-- Witness for C3: a token-less request answered by a page with no common
prefixes but token `"tt"` continues as a run with token `"tt"`; the tokened
request is answered with no further token and the level terminates. -/
theorem iterate_dirs_continuation_witness :
    iterate_dirs emptyPageTokenClient "b" 2 "" "" =
      iterate_dirs emptyPageTokenClient "b" 1 "" "tt"
    ∧ iterate_dirs emptyPageTokenClient "b" 1 "" "tt" = .ok [] := by
  constructor
  · exact (iterate_dirs_continuation Unit emptyPageTokenClient "b" "" "" 1
      { commonPrefixes := none, nextContinuationToken := some "tt" } rfl).1
      "tt" (Or.inl rfl) rfl
  · exact ((iterate_dirs_continuation Unit emptyPageTokenClient "b" "" "tt" 0
      { commonPrefixes := none, nextContinuationToken := none } rfl).2 rfl).trans
      (by simp)

/-- Every element of a strictly sorted list is at most its last element. -/
theorem le_getLast_of_pairwise_lt (l : List String) :
    l.Pairwise (· < ·) → ∀ (h : l ≠ []), ∀ x ∈ l, x ≤ l.getLast h := by
  induction l with
  | nil => intro _ h; exact absurd rfl h
  | cons a t ih =>
      intro hl h x hx
      rcases List.mem_cons.mp hx with rfl | hxt
      · cases t with
        | nil => exact le_of_eq rfl
        | cons b t' =>
            rw [List.getLast_cons (List.cons_ne_nil b t')]
            exact le_of_lt ((List.pairwise_cons.mp hl).1 _ (List.getLast_mem _))
      · have ht : t ≠ [] := by intro he; rw [he] at hxt; simp at hxt
        rw [List.getLast_cons ht]
        exact ih (List.pairwise_cons.mp hl).2 ht x hxt

/-- On a strictly sorted list, keeping the elements strictly beyond the last
element of the first `n` is exactly dropping the first `n` — the heart of
start-after-key pagination. -/
theorem filter_gt_take_getLast (ks : List String) (n : Nat)
    (hsort : ks.Pairwise (· < ·)) (h : ks.take n ≠ []) :
    ks.filter (fun k => decide ((ks.take n).getLast h < k)) = ks.drop n := by
  have hsplit := List.take_append_drop n ks
  have hsort' : (ks.take n ++ ks.drop n).Pairwise (· < ·) := by rw [hsplit]; exact hsort
  obtain ⟨h1, _, hcross⟩ := List.pairwise_append.mp hsort'
  have hLmem : (ks.take n).getLast h ∈ ks.take n := List.getLast_mem h
  calc ks.filter (fun k => decide ((ks.take n).getLast h < k))
      = (ks.take n ++ ks.drop n).filter (fun k => decide ((ks.take n).getLast h < k)) := by
        rw [hsplit]
    _ = (ks.take n).filter (fun k => decide ((ks.take n).getLast h < k)) ++
        (ks.drop n).filter (fun k => decide ((ks.take n).getLast h < k)) :=
        List.filter_append _ _
    _ = [] ++ ks.drop n := by
        congr 1
        · rw [List.filter_eq_nil_iff]
          intro x hx
          simp only [decide_eq_true_eq]
          exact not_lt.mpr (le_getLast_of_pairwise_lt _ h1 h x hx)
        · rw [List.filter_eq_self]
          intro x hx
          exact decide_eq_true (hcross _ hLmem x hx)
    _ = ks.drop n := List.nil_append _

/-- The key filter of the service model, at an empty requested filter,
reduces to the start-after comparison alone. -/
theorem filter_empty_pre (ks : List String) (s : String) :
    ks.filter (fun k => ("" : String).data.isPrefixOf k.data && decide (s < k)) =
      ks.filter (fun k => decide (s < k)) := by
  apply List.filter_congr
  intro x _
  have : ("" : String).data.isPrefixOf x.data = true := by
    simp [List.isPrefixOf_iff_prefix]
  rw [this, Bool.true_and]

/-- Unwrapping the '`Key`' field of a page built by the service model. -/
theorem map_key_map_mk (l : List String) :
    (l.map (fun k => (⟨k⟩ : KeyObject))).map (fun x => x.key) = l := by
  simp [List.map_map, Function.comp_def]

/-- C1: on a bucket of exactly 10001 keys (in listing order: strictly
sorted, all non-empty so they come after the initial `StartAfter=''`
cursor), `iterate_keys` with page size 10000 makes exactly 2 listing calls
and yields exactly the bucket's key list — all 10001 keys in listing order,
no key duplicated, none omitted. -/
theorem iterate_keys_two_pages (ks : List String) (b : String) (fuel : Nat)
    (hlen : ks.length = 10001)
    (hpos : ∀ k ∈ ks, "" < k)
    (hsort : ks.Pairwise (· < ·)) :
    iterate_keys (keysClientOfBucket ks) b "" (fuel + 2) "" [] 0 = .ok ks 2 := by
  have hm1 : ks.filter (fun k => decide (("" : String) < k)) = ks :=
    List.filter_eq_self.mpr (fun a ha => decide_eq_true (hpos a ha))
  have htake_ne : ks.take 10000 ≠ [] := by
    intro hnil
    have := congrArg List.length hnil
    rw [List.length_take, hlen] at this
    simp at this
  have hdroplen : (ks.drop 10000).length = 1 := by rw [List.length_drop, hlen]
  obtain ⟨z, hz⟩ := List.length_eq_one.mp hdroplen
  have hm2 : ks.filter (fun k => decide ((ks.take 10000).getLast htake_ne < k)) = [z] := by
    rw [filter_gt_take_getLast ks 10000 hsort htake_ne, hz]
  have hresp1 : listKeysService ks "" 10000 "" =
      { contents := some ((ks.take 10000).map (fun k => ⟨k⟩)), isTruncated := true } := by
    simp only [listKeysService, filter_empty_pre, hm1, if_neg htake_ne, hlen]
    rfl
  have hresp2 : listKeysService ks "" 10000 ((ks.take 10000).getLast htake_ne) =
      { contents := some [⟨z⟩], isTruncated := false } := by
    simp only [listKeysService, filter_empty_pre, hm2]
    rfl
  have hgetLast : (ks.take 10000).getLast? = some ((ks.take 10000).getLast htake_ne) :=
    List.getLast?_eq_getLast _ htake_ne
  simp only [iterate_keys, keysClientOfBucket, hresp1, hresp2, map_key_map_mk,
    hgetLast, List.nil_append]
  rw [show ([⟨z⟩] : List KeyObject).map (fun x => x.key) = [z] from rfl]
  rw [← hz, List.take_append_drop]
  simp

/-- Keys `"a" < "aa" < ...` are strictly increasing in the replicate count. -/
theorem replicate_a_lex : ∀ m n : Nat, m < n →
    List.Lex (· < ·) (List.replicate m 'a') (List.replicate n 'a') := by
  intro m
  induction m with
  | zero =>
      intro n h
      cases n with
      | zero => exact absurd h (Nat.not_lt_zero 0)
      | succ n => rw [List.replicate_succ]; exact List.Lex.nil
  | succ m ih =>
      intro n h
      cases n with
      | zero => exact absurd h (Nat.not_lt_zero _)
      | succ n =>
          rw [List.replicate_succ, List.replicate_succ]
          exact List.Lex.cons (ih n (Nat.lt_of_succ_lt_succ h))

/-- The `mkKeys` keys are strictly increasing. -/
theorem mkKeys_lt (m n : Nat) (h : m < n) :
    (⟨List.replicate m 'a'⟩ : String) < ⟨List.replicate n 'a'⟩ := by
  rw [String.lt_iff_toList_lt]
  exact replicate_a_lex m n h

/-- `mkKeys n` is strictly sorted. -/
theorem mkKeys_sorted (n : Nat) : (mkKeys n).Pairwise (· < ·) := by
  unfold mkKeys
  rw [List.pairwise_map]
  exact (List.pairwise_lt_range n).imp (fun h => mkKeys_lt _ _ (Nat.succ_lt_succ h))

/-- All `mkKeys` keys are strictly above the empty string. -/
theorem mkKeys_pos (n : Nat) : ∀ k ∈ mkKeys n, "" < k := by
  intro k hk
  unfold mkKeys at hk
  obtain ⟨i, _, rfl⟩ := List.mem_map.mp hk
  rw [String.lt_iff_toList_lt]
  show List.Lex (· < ·) [] (List.replicate (i + 1) 'a')
  rw [List.replicate_succ]
  exact List.Lex.nil

/-- `mkKeys n` has `n` keys. -/
theorem mkKeys_length (n : Nat) : (mkKeys n).length = n := by simp [mkKeys]

/-- Witness for C1: the concrete 10001-key bucket `mkKeys 10001`. -/
theorem iterate_keys_two_pages_witness :
    iterate_keys (keysClientOfBucket (mkKeys 10001)) "bkt" "" 2 "" [] 0 =
      .ok (mkKeys 10001) 2 :=
  iterate_keys_two_pages (mkKeys 10001) "bkt" 0 (mkKeys_length 10001)
    (mkKeys_pos 10001) (mkKeys_sorted 10001)

/-- Scanning for the first `'/'` past a slash-free chunk. -/
theorem takeWhile_dropWhile_slash (cs : List Char) (h : ¬ '/' ∈ cs) (t : List Char) :
    (cs ++ '/' :: t).takeWhile (· ≠ '/') = cs
    ∧ (cs ++ '/' :: t).dropWhile (· ≠ '/') = '/' :: t := by
  induction cs with
  | nil => simp [List.takeWhile_cons, List.dropWhile_cons]
  | cons a as ih =>
      have ha : a ≠ '/' := fun he => h (he ▸ List.mem_cons_self a as)
      have has : ¬ '/' ∈ as := fun he => h (List.mem_cons_of_mem a he)
      obtain ⟨ht, hd⟩ := ih has
      constructor
      · rw [List.cons_append, List.takeWhile_cons, if_pos (by simp [ha]), ht]
      · rw [List.cons_append, List.dropWhile_cons, if_pos (by simp [ha]), hd]

/-- C7 counterexample: the claim fails for a source key beginning with
`'/'`.  The object `("b", "/x")` exists, yet `copy_file` does not copy it:
`os.path.join("b", "/x")` discards the bucket and produces the copy source
`"/x"`, which names no `bucket/key` pair, so the SDK call fails and the
target read afterwards does not equal the source read (`NoSuchKey` versus
the source's content). -/
theorem copy_file_slash_key_counterexample :
    storeGet [(("b", "/x"), [1])] "b" "/x" = some [1]
    ∧ os_path_join "b" "/x" = "/x"
    ∧ copy_file (modelResource (fun _ => [])) [(("b", "/x"), [1])] "b" "/x" "t" "tk" =
        .error (.invalidCopySource "/x")
    ∧ read_file (modelResource (fun _ => [])) codePointReg
        [(("b", "/x"), [1])] "b" "/x" "utf-8" =
        .ok (.inr ⟨[Char.ofNat 1]⟩, [(("b", "/x"), [1])])
    ∧ read_file (modelResource (fun _ => [])) codePointReg
        [(("b", "/x"), [1])] "t" "tk" "utf-8" =
        .error (.noSuchKey "t" "tk") :=
  ⟨rfl, rfl, rfl, rfl, rfl⟩

/-- C7 (amended): for every existing source object whose bucket name is
valid (non-empty, no `'/'`) and whose key does not begin with `'/'`,
`copy_file` succeeds and afterwards reading the target bucket/key returns
content identical to reading the source bucket/key. -/
theorem copy_then_read_agree (localRead : String → List Nat) (reg : CodecRegistry)
    (st : S3Store) (sb sk tb tk : String) (v : List Nat)
    (hb_ne : sb ≠ "") (hb_slash : ¬ '/' ∈ sb.data)
    (hk_head : sk.data.head? ≠ some '/')
    (hsrc : storeGet st sb sk = some v) :
    ∃ st', copy_file (modelResource localRead) st sb sk tb tk = .ok ((), st')
      ∧ read_file (modelResource localRead) reg st' tb tk "utf-8" =
        read_file (modelResource localRead) reg st' sb sk "utf-8" := by
  have hdat_ne : sb.data ≠ [] := fun h => hb_ne (String.ext h)
  have hlast : sb.data.getLast? ≠ some '/' := by
    intro h
    exact hb_slash (List.mem_of_mem_getLast? (by simp [h]))
  have hjoin : os_path_join sb sk = sb ++ "/" ++ sk := by
    rw [os_path_join, if_neg hk_head, if_neg hb_ne, if_neg hlast]
  have hdata : (sb ++ "/" ++ sk).data = sb.data ++ '/' :: sk.data := by
    rw [String.data_append, String.data_append]
    simp
  have hparse : parseCopySource (sb ++ "/" ++ sk) = some (sb, sk) := by
    obtain ⟨c, cs, hcb⟩ := List.exists_cons_of_ne_nil hdat_ne
    have hc_ne : c ≠ '/' := fun he => hb_slash (by rw [hcb]; exact he ▸ List.mem_cons_self c cs)
    obtain ⟨ht, hd⟩ := takeWhile_dropWhile_slash sb.data hb_slash sk.data
    rw [parseCopySource, hdata]
    rw [if_neg (by rw [hcb]; simp [hc_ne])]
    rw [show (sb.data ++ '/' :: sk.data).takeWhile (· ≠ '/') = sb.data from ht,
        show (sb.data ++ '/' :: sk.data).dropWhile (· ≠ '/') = '/' :: sk.data from hd]
    simp only [if_neg hdat_ne]
  refine ⟨((tb, tk), v) :: st, ?_, ?_⟩
  · rw [copy_file]
    show (modelResource localRead).object_copy_from st tb tk (os_path_join sb sk) = _
    rw [hjoin]
    simp only [modelResource, hparse, hsrc]
  · have htg : storeGet (((tb, tk), v) :: st) tb tk = some v := by simp [storeGet]
    have hsg : storeGet (((tb, tk), v) :: st) sb sk = some v := by
      by_cases h : tb = sb ∧ tk = sk
      · simp [storeGet, h]
      · simp [storeGet, h, hsrc]
    have hne : ("utf-8" : String) ≠ "" := by decide
    simp [read_file, modelResource, htg, hsg, hne]

/-- Witness for C7 (amended) at a one-object store. -/
theorem copy_then_read_agree_witness :
    ∃ st', copy_file (modelResource (fun _ => [])) [(("b", "x"), [1])] "b" "x" "t" "tk" =
        .ok ((), st')
      ∧ read_file (modelResource (fun _ => [])) codePointReg st' "t" "tk" "utf-8" =
        read_file (modelResource (fun _ => [])) codePointReg st' "b" "x" "utf-8" :=
  copy_then_read_agree (fun _ => []) codePointReg [(("b", "x"), [1])] "b" "x" "t" "tk" [1]
    (by decide) (by decide) (by decide) rfl

/-- Elements of a fold-max are bounded by the fold. -/
theorem le_foldr_max (l : List Nat) (x : Nat) (hx : x ∈ l) :
    x ≤ l.foldr Nat.max 0 := by
  induction l with
  | nil => simp at hx
  | cons a t ih =>
      rcases List.mem_cons.mp hx with rfl | hxt
      · exact Nat.le_max_left _ _
      · exact Nat.le_trans (ih hxt) (Nat.le_max_right _ _)

/-- Every key of the bucket is at most `maxKeyLen` long. -/
theorem length_le_maxKeyLen (ks : List String) (k : String) (hk : k ∈ ks) :
    k.length ≤ maxKeyLen ks :=
  le_foldr_max _ _ (List.mem_map.mpr ⟨k, hk, rfl⟩)

/-- `dedupFirst` only keeps elements of its input. -/
theorem dedupFirst_subset (l : List String) (x : String) (hx : x ∈ dedupFirst l) :
    x ∈ l := by
  have aux : ∀ (l' : List String) (acc : List String),
      x ∈ l'.foldl (fun acc x => if x ∈ acc then acc else acc ++ [x]) acc →
      x ∈ acc ∨ x ∈ l' := by
    intro l'
    induction l' with
    | nil => intro acc h; exact Or.inl h
    | cons a t ih =>
        intro acc h
        rcases ih _ h with hacc | ht
        · have hacc' : x ∈ if a ∈ acc then acc else acc ++ [a] := hacc
          by_cases ha : a ∈ acc
          · rw [if_pos ha] at hacc'; exact Or.inl hacc'
          · rw [if_neg ha] at hacc'
            rcases List.mem_append.mp hacc' with h1 | h1
            · exact Or.inl h1
            · simp at h1; exact Or.inr (h1 ▸ List.mem_cons_self a t)
        · exact Or.inr (List.mem_cons_of_mem a ht)
  rcases aux l [] hx with h | h
  · simp at h
  · exact h

/-- A character list containing `'/'` splits at the first `'/'`. -/
theorem exists_slash_split (l : List Char) (h : l.contains '/' = true) :
    ∃ t, l = l.takeWhile (· ≠ '/') ++ '/' :: t := by
  induction l with
  | nil => simp at h
  | cons a as ih =>
      by_cases ha : a = '/'
      · subst ha
        exact ⟨as, by simp [List.takeWhile_cons]⟩
      · have has : as.contains '/' = true := by
          simp only [List.contains_cons] at h
          rcases Bool.or_eq_true_iff.mp h with h1 | h1
          · exact absurd (beq_iff_eq.mp h1).symm ha
          · exact h1
        obtain ⟨t, ht⟩ := ih has
        refine ⟨t, ?_⟩
        rw [List.takeWhile_cons, if_pos (by simp [ha]), List.cons_append]
        exact congrArg (a :: ·) ht

/-- Every common prefix strictly extends the requested starting point and is
no longer than the longest key. -/
theorem commonPrefixesOf_mem_length (ks : List String) (pre d : String)
    (hd : d ∈ commonPrefixesOf ks pre) :
    pre.length < d.length ∧ d.length ≤ maxKeyLen ks := by
  have hd' := dedupFirst_subset _ _ hd
  obtain ⟨k, hkmem, hk⟩ := List.mem_filterMap.mp hd'
  have hkks : k ∈ ks := (List.mem_filter.mp hkmem).1
  have hkpre : pre.data.isPrefixOf k.data = true := (List.mem_filter.mp hkmem).2
  by_cases hcont : (k.data.drop pre.data.length).contains '/' = true
  · rw [if_pos hcont] at hk
    have hdq : (⟨pre.data ++ (k.data.drop pre.data.length).takeWhile (· ≠ '/') ++ ['/']⟩ :
        String) = d := Option.some.inj hk
    subst hdq
    constructor
    · show pre.data.length < (pre.data ++ _ ++ ['/']).length
      simp
    · obtain ⟨t0, hk0⟩ := List.isPrefixOf_iff_prefix.mp hkpre
      have hrest : k.data.drop pre.data.length = t0 := by
        rw [← hk0, List.drop_left]
      obtain ⟨t, hsplit⟩ := exists_slash_split (k.data.drop pre.data.length) hcont
      have hklen : k.length =
          pre.data.length + (((k.data.drop pre.data.length).takeWhile (· ≠ '/')).length
            + (1 + t.length)) := by
        show k.data.length = _
        rw [hrest] at hsplit ⊢
        rw [← hk0]
        have hlen0 := congrArg List.length hsplit
        simp [List.length_append] at hlen0 ⊢
        omega
      have hle : (⟨pre.data ++ (k.data.drop pre.data.length).takeWhile (· ≠ '/') ++ ['/']⟩ :
          String).length ≤ k.length := by
        show (pre.data ++ _ ++ ['/']).length ≤ k.length
        rw [hklen]
        simp [List.length_append]
      exact hle.trans (length_le_maxKeyLen ks k hkks)
  · rw [if_neg hcont] at hk
    simp at hk

/-- Once the starting point is at least as long as every key, there are no
common prefixes below it. -/
theorem commonPrefixesOf_eq_nil (ks : List String) (pre : String)
    (h : maxKeyLen ks ≤ pre.length) : commonPrefixesOf ks pre = [] := by
  rw [List.eq_nil_iff_forall_not_mem]
  intro d hd
  obtain ⟨h1, h2⟩ := commonPrefixesOf_mem_length ks pre d hd
  omega

/-- Pointwise-equal functions give equal flatMaps. -/
theorem flatMap_congr_fun (l : List String) (f g : String → List String)
    (h : ∀ x ∈ l, f x = g x) : l.flatMap f = l.flatMap g := by
  induction l with
  | nil => rfl
  | cons a t ih =>
      rw [List.flatMap_cons, List.flatMap_cons, h a (List.mem_cons_self a t),
        ih (fun x hx => h x (List.mem_cons_of_mem a hx))]

/-- The depth fuel of `dirsSpec` is irrelevant once it exceeds the length
gap up to the longest key. -/
theorem dirsSpec_stable (ks : List String) :
    ∀ n m (pre : String), maxKeyLen ks ≤ pre.length + n → maxKeyLen ks ≤ pre.length + m →
      dirsSpec ks n pre = dirsSpec ks m pre := by
  intro n
  induction n with
  | zero =>
      intro m pre hn _
      cases m with
      | zero => rfl
      | succ m =>
          show dirsSpec ks 0 pre = dirsSpec ks (m + 1) pre
          rw [dirsSpec, dirsSpec, commonPrefixesOf_eq_nil ks pre (by omega)]
          rfl
  | succ n ih =>
      intro m pre hn hm
      cases m with
      | zero =>
          show dirsSpec ks (n + 1) pre = dirsSpec ks 0 pre
          rw [dirsSpec, dirsSpec, commonPrefixesOf_eq_nil ks pre (by omega)]
          rfl
      | succ m =>
          rw [dirsSpec, dirsSpec]
          apply flatMap_congr_fun
          intro d hd
          obtain ⟨hlt, _⟩ := commonPrefixesOf_mem_length ks pre d hd
          rw [ih m d (by omega) (by omega)]

/-- A non-`ok` page outcome is frozen by the rest of the page's entries. -/
theorem foldl_seqYieldDir_frozen (client : S3Client ε) (b : String) (fuel : Nat)
    (entries : List CommonPrefixEntry) (x : DirsResult ε) (hx : ∀ ds, x ≠ .ok ds) :
    entries.foldl (fun acc subdir =>
      seqYieldDir acc subdir.pfx (iterate_dirs client b fuel subdir.pfx "")) x = x := by
  induction entries with
  | nil => rfl
  | cons e es ih =>
      rw [List.foldl_cons]
      have hstep : seqYieldDir x e.pfx (iterate_dirs client b fuel e.pfx "") = x := by
        cases x with
        | ok ds => exact absurd rfl (hx ds)
        | clientError e' l => rfl
        | fuelOut => rfl
      rw [hstep, ih]

/-- When every entry's recursive descent completes with the values of `g`,
the page fold yields each entry followed by its descent, in order. -/
theorem foldl_seqYieldDir_ok (client : S3Client ε) (b : String) (fuel : Nat)
    (g : String → List String) :
    ∀ (entries : List CommonPrefixEntry),
      (∀ e ∈ entries, iterate_dirs client b fuel e.pfx "" = .ok (g e.pfx)) →
      ∀ ds0, entries.foldl (fun acc subdir =>
          seqYieldDir acc subdir.pfx (iterate_dirs client b fuel subdir.pfx ""))
        (DirsResult.ok ds0) = .ok (ds0 ++ entries.flatMap (fun e => e.pfx :: g e.pfx)) := by
  intro entries
  induction entries with
  | nil => intro _ ds0; simp
  | cons e es ih =>
      intro h ds0
      rw [List.foldl_cons]
      have hstep : seqYieldDir (DirsResult.ok ds0) e.pfx
          (iterate_dirs client b fuel e.pfx "") = .ok (ds0 ++ e.pfx :: g e.pfx) := by
        rw [h e (List.mem_cons_self e es)]
        rfl
      rw [hstep, ih (fun x hx => h x (List.mem_cons_of_mem e hx))]
      simp

/-- Inversion of `pageFinish` ending in `ok`. -/
theorem pageFinish_eq_ok (x : DirsResult ε) (tkOpt : Option String)
    (next : String → DirsResult ε) (ds : List String)
    (h : pageFinish x tkOpt next = .ok ds) :
    ∃ ds1, x = .ok ds1 ∧
      ((tkOpt = none ∧ ds = ds1) ∨
        (∃ t ds2, tkOpt = some t ∧ next t = .ok ds2 ∧ ds = ds1 ++ ds2)) := by
  cases x with
  | clientError e l => exact absurd h (by simp [pageFinish])
  | fuelOut => exact absurd h (by simp [pageFinish])
  | ok ds1 =>
      refine ⟨ds1, rfl, ?_⟩
      cases tkOpt with
      | none =>
          left
          exact ⟨rfl, ((DirsResult.ok.injEq _ _).mp h.symm)⟩
      | some t =>
          right
          cases hnt : next t with
          | ok ds2 =>
              refine ⟨t, ds2, rfl, hnt, ?_⟩
              rw [pageFinish, hnt] at h
              exact ((DirsResult.ok.injEq _ _).mp h.symm)
          | clientError e l => rw [pageFinish, hnt] at h; exact absurd h (by simp)
          | fuelOut => rw [pageFinish, hnt] at h; exact absurd h (by simp)

/-- Page-fold monotonicity: a page fold that completes at some fuel, with
every completed descent preserved at higher fuel, completes identically. -/
theorem foldl_seqYieldDir_mono (client : S3Client ε) (b : String) (fuel fuel' : Nat)
    (hm : ∀ (pre : String) (ds : List String),
      iterate_dirs client b fuel pre "" = .ok ds →
      iterate_dirs client b fuel' pre "" = .ok ds) :
    ∀ (entries : List CommonPrefixEntry) (acc0 ds1 : List String),
      entries.foldl (fun acc subdir =>
        seqYieldDir acc subdir.pfx (iterate_dirs client b fuel subdir.pfx ""))
        (DirsResult.ok acc0) = .ok ds1 →
      entries.foldl (fun acc subdir =>
        seqYieldDir acc subdir.pfx (iterate_dirs client b fuel' subdir.pfx ""))
        (DirsResult.ok acc0) = .ok ds1 := by
  intro entries
  induction entries with
  | nil => intro acc0 ds1 h; exact h
  | cons e es ih2 =>
      intro acc0 ds1 h
      rw [List.foldl_cons] at h ⊢
      cases hsube : iterate_dirs client b fuel e.pfx "" with
      | ok d2 =>
          rw [hsube] at h
          rw [hm e.pfx d2 hsube]
          have hred : (seqYieldDir (DirsResult.ok acc0) e.pfx (DirsResult.ok d2) :
              DirsResult ε) = DirsResult.ok (acc0 ++ e.pfx :: d2) := rfl
          rw [hred] at h ⊢
          exact ih2 _ _ h
      | clientError e' l =>
          rw [hsube] at h
          rw [foldl_seqYieldDir_frozen client b fuel es _ (by simp [seqYieldDir])] at h
          exact absurd h (by simp [seqYieldDir])
      | fuelOut =>
          rw [hsube] at h
          rw [foldl_seqYieldDir_frozen client b fuel es _ (by simp [seqYieldDir])] at h
          exact absurd h (by simp [seqYieldDir])

/-- Fuel monotonicity: a completed traversal is unchanged by extra fuel. -/
theorem iterate_dirs_mono (client : S3Client ε) (b : String) :
    ∀ fuel fuel', fuel ≤ fuel' → ∀ (pre tok : String) (ds : List String),
      iterate_dirs client b fuel pre tok = .ok ds →
      iterate_dirs client b fuel' pre tok = .ok ds := by
  intro fuel
  induction fuel with
  | zero =>
      intro fuel' _ pre tok ds h
      exact absurd h (by simp [iterate_dirs])
  | succ fuel ih =>
      intro fuel' hle pre tok ds h
      cases fuel' with
      | zero => omega
      | succ fuel'' =>
          have hf : fuel ≤ fuel'' := by omega
          rw [iterate_dirs] at h ⊢
          cases hresp : (if tok ≠ "" then client.list_objects_v2_delim b pre (some tok)
              else client.list_objects_v2_delim b pre none) with
          | error e => rw [hresp] at h; exact h
          | ok r =>
              rw [hresp] at h
              obtain ⟨ds1, hsub, hrest⟩ := pageFinish_eq_ok _ _ _ _ h
              have hsub' : (match r.commonPrefixes with
                  | none => []
                  | some l => l : List CommonPrefixEntry).foldl (fun acc subdir =>
                    seqYieldDir acc subdir.pfx
                      (iterate_dirs client b fuel'' subdir.pfx ""))
                  (DirsResult.ok []) = .ok ds1 :=
                foldl_seqYieldDir_mono client b fuel fuel''
                  (fun p ds' h' => ih fuel'' hf p "" ds' h') _ [] ds1 hsub
              rcases hrest with ⟨htk, rfl⟩ | ⟨t, ds2, htk, hnext, rfl⟩
              · have goal' : pageFinish
                    ((match r.commonPrefixes with
                      | none => []
                      | some l => l : List CommonPrefixEntry).foldl (fun acc subdir =>
                        seqYieldDir acc subdir.pfx
                          (iterate_dirs client b fuel'' subdir.pfx ""))
                      (DirsResult.ok []))
                    r.nextContinuationToken
                    (fun t => iterate_dirs client b fuel'' pre t) = DirsResult.ok ds := by
                  rw [htk, hsub', pageFinish_none]
                exact goal'
              · have goal' : pageFinish
                    ((match r.commonPrefixes with
                      | none => []
                      | some l => l : List CommonPrefixEntry).foldl (fun acc subdir =>
                        seqYieldDir acc subdir.pfx
                          (iterate_dirs client b fuel'' subdir.pfx ""))
                      (DirsResult.ok []))
                    r.nextContinuationToken
                    (fun t => iterate_dirs client b fuel'' pre t) =
                      DirsResult.ok (ds1 ++ ds2) := by
                  rw [htk, hsub']
                  simp only [pageFinish]
                  rw [ih fuel'' hf pre t ds2 hnext]
                exact goal'

/-- A finite family of completed descents admits one fuel that works for
all of them. -/
theorem exists_uniform_fuel (client : S3Client ε) (b : String) (g : String → List String) :
    ∀ (l : List String), (∀ d ∈ l, ∃ F, iterate_dirs client b F d "" = .ok (g d)) →
      ∃ F, ∀ d ∈ l, iterate_dirs client b F d "" = .ok (g d) := by
  intro l
  induction l with
  | nil => intro _; exact ⟨0, fun d hd => absurd hd (List.not_mem_nil d)⟩
  | cons a t ih =>
      intro h
      obtain ⟨F1, h1⟩ := h a (List.mem_cons_self a t)
      obtain ⟨F2, h2⟩ := ih (fun d hd => h d (List.mem_cons_of_mem a hd))
      refine ⟨max F1 F2, ?_⟩
      intro d hd
      rcases List.mem_cons.mp hd with rfl | hdt
      · exact iterate_dirs_mono client b F1 (max F1 F2) (Nat.le_max_left _ _) d "" (g d) h1
      · exact iterate_dirs_mono client b F2 (max F1 F2) (Nat.le_max_right _ _) d "" (g d)
          (h2 d hdt)

/-- Service-model tokens are never the empty string. -/
theorem encodeTok_ne_empty (n : Nat) : encodeTok n ≠ "" := by
  intro h
  have hd := congrArg String.data h
  simp [encodeTok] at hd

/-- Round trip of the service-model token encoding. -/
theorem decodeTok_encodeTok (n : Nat) : decodeTok (encodeTok n) = n := by
  simp [decodeTok, encodeTok]

/-- One `while`-iteration unfolding of `iterate_dirs` when the listing call
answers `r`. -/
theorem iterate_dirs_succ_ok (client : S3Client ε) (b : String) (fuel : Nat)
    (pre tok : String) (r : DirResponse)
    (hr : (if tok ≠ "" then client.list_objects_v2_delim b pre (some tok)
           else client.list_objects_v2_delim b pre none) = .ok r) :
    iterate_dirs client b (fuel + 1) pre tok =
      pageFinish ((match r.commonPrefixes with
          | none => []
          | some l => l : List CommonPrefixEntry).foldl (fun acc subdir =>
            seqYieldDir acc subdir.pfx (iterate_dirs client b fuel subdir.pfx ""))
          (DirsResult.ok []))
        r.nextContinuationToken
        (fun t => iterate_dirs client b fuel pre t) := by
  rw [iterate_dirs, hr]

/-- The dir-listing call `iterate_dirs` makes at page offset `start` of a
level (token `''` at offset `0`, a service token otherwise), evaluated
against the bucket model. -/
theorem dirClient_call (ks : List String) (b pre : String) (start : Nat) :
    (if (if start = 0 then "" else encodeTok start) ≠ "" then
      (dirClientOfBucket ks).list_objects_v2_delim b pre
        (some (if start = 0 then "" else encodeTok start))
    else (dirClientOfBucket ks).list_objects_v2_delim b pre none) =
    .ok { commonPrefixes :=
            if ((commonPrefixesOf ks pre).drop start).take 1000 = [] then none
            else some ((((commonPrefixesOf ks pre).drop start).take 1000).map
              (fun d => ⟨d⟩))
          nextContinuationToken :=
            if start + 1000 < (commonPrefixesOf ks pre).length
            then some (encodeTok (start + 1000)) else none } := by
  by_cases h0 : start = 0
  · subst h0
    rw [if_neg (by simp)]
    show Except.ok (dirService ks 1000 pre none) = _
    rw [dirService]
  · simp only [if_neg h0]
    rw [if_pos (encodeTok_ne_empty start)]
    show Except.ok (dirService ks 1000 pre (some (encodeTok start))) = _
    simp only [dirService, decodeTok_encodeTok]

/-- Unwrapping the `'Prefix'` field of a page built by the service model. -/
theorem flatMap_map_mkEntry (l : List String) (g : String → List String) :
    (l.map (fun d => (⟨d⟩ : CommonPrefixEntry))).flatMap (fun e => e.pfx :: g e.pfx) =
    l.flatMap (fun d => d :: g d) := by
  induction l with
  | nil => rfl
  | cons a t ih => simp only [List.map_cons, List.flatMap_cons, ih]

/-- One `while`-iteration unfolding of `iterate_dirs` when the listing call
answers a page with common prefixes `cps`. -/
theorem iterate_dirs_succ_some (client : S3Client ε) (b : String) (fuel : Nat)
    (pre tok : String) (cps : List CommonPrefixEntry) (tk : Option String)
    (hr : (if tok ≠ "" then client.list_objects_v2_delim b pre (some tok)
           else client.list_objects_v2_delim b pre none) = .ok ⟨some cps, tk⟩) :
    iterate_dirs client b (fuel + 1) pre tok =
      pageFinish (cps.foldl (fun acc subdir =>
          seqYieldDir acc subdir.pfx (iterate_dirs client b fuel subdir.pfx ""))
        (DirsResult.ok [])) tk (fun t => iterate_dirs client b fuel pre t) := by
  rw [iterate_dirs, hr]

/-- One `while`-iteration unfolding of `iterate_dirs` when the listing call
answers a page with no `'CommonPrefixes'` entry. -/
theorem iterate_dirs_succ_none (client : S3Client ε) (b : String) (fuel : Nat)
    (pre tok : String) (tk : Option String)
    (hr : (if tok ≠ "" then client.list_objects_v2_delim b pre (some tok)
           else client.list_objects_v2_delim b pre none) = .ok ⟨none, tk⟩) :
    iterate_dirs client b (fuel + 1) pre tok =
      pageFinish (DirsResult.ok []) tk (fun t => iterate_dirs client b fuel pre t) := by
  rw [iterate_dirs, hr]
  rfl

/-- Page loop of one level of `iterate_dirs` against the bucket model: when
every common prefix below `pre` has a completed recursive descent (with
values `g`), every page suffix of the level completes and yields each
remaining common prefix followed by its descent, in order. -/
theorem iterate_dirs_level (ks : List String) (b pre : String)
    (g : String → List String) (F0 : Nat)
    (hsub : ∀ d ∈ commonPrefixesOf ks pre,
      iterate_dirs (dirClientOfBucket ks) b F0 d "" = .ok (g d)) :
    ∀ K start, (commonPrefixesOf ks pre).length ≤ start + K →
      ∃ F, iterate_dirs (dirClientOfBucket ks) b F pre
          (if start = 0 then "" else encodeTok start) =
        .ok (((commonPrefixesOf ks pre).drop start).flatMap (fun d => d :: g d)) := by
  intro K
  induction K with
  | zero =>
      intro start hK
      refine ⟨0 + 1, ?_⟩
      have hdrop : (commonPrefixesOf ks pre).drop start = [] :=
        List.drop_eq_nil_of_le (by omega)
      have hno : ¬ (start + 1000 < (commonPrefixesOf ks pre).length) := by omega
      have hcall := dirClient_call ks b pre start
      rw [hdrop, List.take_nil, if_pos rfl, if_neg hno] at hcall
      rw [iterate_dirs_succ_none _ _ _ _ _ _ hcall, hdrop]
      rfl
  | succ K ihK =>
      intro start hK
      by_cases hnext : start + 1000 < (commonPrefixesOf ks pre).length
      · obtain ⟨F1, hF1⟩ := ihK (start + 1000) (by omega)
        have hF1' : iterate_dirs (dirClientOfBucket ks) b (max F0 F1) pre
            (encodeTok (start + 1000)) =
            .ok (((commonPrefixesOf ks pre).drop (start + 1000)).flatMap
              (fun d => d :: g d)) := by
          have htk : (if start + 1000 = 0 then "" else encodeTok (start + 1000)) =
              encodeTok (start + 1000) := by rw [if_neg (by omega)]
          rw [← htk]
          exact iterate_dirs_mono _ _ F1 (max F0 F1) (Nat.le_max_right _ _) _ _ _ hF1
        refine ⟨max F0 F1 + 1, ?_⟩
        have hpage_ne : ((commonPrefixesOf ks pre).drop start).take 1000 ≠ [] := by
          intro hemp
          have hl := congrArg List.length hemp
          rw [List.length_take, List.length_drop] at hl
          simp at hl
          omega
        have hcall := dirClient_call ks b pre start
        rw [if_neg hpage_ne, if_pos hnext] at hcall
        rw [iterate_dirs_succ_some _ _ _ _ _ _ _ hcall]
        have hfold := foldl_seqYieldDir_ok (dirClientOfBucket ks) b (max F0 F1) g
          ((((commonPrefixesOf ks pre).drop start).take 1000).map (fun d => ⟨d⟩))
          (fun e he => by
            obtain ⟨d, hd, rfl⟩ := List.mem_map.mp he
            exact iterate_dirs_mono _ _ F0 (max F0 F1) (Nat.le_max_left _ _) _ _ _
              (hsub d (List.drop_subset _ _ (List.take_subset _ _ hd))))
          []
        rw [hfold]
        have hsplitpage : (commonPrefixesOf ks pre).drop start =
            ((commonPrefixesOf ks pre).drop start).take 1000 ++
              (commonPrefixesOf ks pre).drop (start + 1000) := by
          conv_lhs => rw [← List.take_append_drop 1000
            ((commonPrefixesOf ks pre).drop start)]
          rw [List.drop_drop]
        conv_rhs => rw [hsplitpage, List.flatMap_append]
        simp only [pageFinish, hF1', List.nil_append, flatMap_map_mkEntry]
      · have hpagefull : ((commonPrefixesOf ks pre).drop start).take 1000 =
            (commonPrefixesOf ks pre).drop start :=
          List.take_of_length_le (by rw [List.length_drop]; omega)
        by_cases hpe : (commonPrefixesOf ks pre).drop start = []
        · refine ⟨0 + 1, ?_⟩
          have hcall := dirClient_call ks b pre start
          rw [hpe, List.take_nil, if_pos rfl, if_neg hnext] at hcall
          rw [iterate_dirs_succ_none _ _ _ _ _ _ hcall, hpe]
          rfl
        · refine ⟨F0 + 1, ?_⟩
          have hcall := dirClient_call ks b pre start
          rw [hpagefull, if_neg hpe, if_neg hnext] at hcall
          rw [iterate_dirs_succ_some _ _ _ _ _ _ _ hcall]
          have hfold := foldl_seqYieldDir_ok (dirClientOfBucket ks) b F0 g
            (((commonPrefixesOf ks pre).drop start).map (fun d => ⟨d⟩))
            (fun e he => by
              obtain ⟨d, hd, rfl⟩ := List.mem_map.mp he
              exact hsub d (List.drop_subset _ _ hd))
            []
          rw [hfold, pageFinish_none, List.nil_append, flatMap_map_mkEntry]

/-- C5: against the bucket model of a finite keyspace, `iterate_dirs`
terminates — some fuel bound `F` exists past which both the page loop and
the recursion complete — and its finite yield sequence is exactly
`dirsSpec`, the depth-first pre-order enumeration of all virtual directory
paths under the starting point: each common prefix is yielded before its
descendants, and all of a directory's descendants before the next sibling
of the same page. -/
theorem iterate_dirs_terminates_dfs (ks : List String) (b pre : String) :
    ∃ F, ∀ f, F ≤ f →
      iterate_dirs (dirClientOfBucket ks) b f pre "" =
        .ok (dirsSpec ks (maxKeyLen ks + 1) pre) := by
  have aux : ∀ n (pre' : String), maxKeyLen ks + 1 ≤ pre'.length + n →
      ∃ F, iterate_dirs (dirClientOfBucket ks) b F pre' "" =
        .ok (dirsSpec ks (maxKeyLen ks + 1) pre') := by
    intro n
    induction n with
    | zero =>
        intro pre' h
        have hcp : commonPrefixesOf ks pre' = [] :=
          commonPrefixesOf_eq_nil ks pre' (by omega)
        have hspec : dirsSpec ks (maxKeyLen ks + 1) pre' = [] := by
          rw [dirsSpec, hcp]; rfl
        obtain ⟨F, hF⟩ := iterate_dirs_level ks b pre'
          (fun d => dirsSpec ks (maxKeyLen ks + 1) d) 0
          (by rw [hcp]; exact fun d hd => absurd hd (List.not_mem_nil d))
          (commonPrefixesOf ks pre').length 0 (by omega)
        refine ⟨F, ?_⟩
        have h0 : (if (0 : Nat) = 0 then "" else encodeTok 0) = "" := rfl
        rw [h0, hcp] at hF
        rw [hspec]
        exact hF
    | succ n ih =>
        intro pre' h
        have hsub : ∀ d ∈ commonPrefixesOf ks pre', ∃ F,
            iterate_dirs (dirClientOfBucket ks) b F d "" =
              .ok (dirsSpec ks (maxKeyLen ks + 1) d) := by
          intro d hd
          obtain ⟨hlt, hle⟩ := commonPrefixesOf_mem_length ks pre' d hd
          exact ih d (by omega)
        obtain ⟨F0, hF0⟩ := exists_uniform_fuel (dirClientOfBucket ks) b
          (fun d => dirsSpec ks (maxKeyLen ks + 1) d) (commonPrefixesOf ks pre') hsub
        obtain ⟨F, hF⟩ := iterate_dirs_level ks b pre'
          (fun d => dirsSpec ks (maxKeyLen ks + 1) d) F0 hF0
          (commonPrefixesOf ks pre').length 0 (by omega)
        refine ⟨F, ?_⟩
        have h0 : (if (0 : Nat) = 0 then "" else encodeTok 0) = "" := rfl
        rw [h0, List.drop_zero] at hF
        have hspec : dirsSpec ks (maxKeyLen ks + 1) pre' =
            (commonPrefixesOf ks pre').flatMap
              (fun d => d :: dirsSpec ks (maxKeyLen ks + 1) d) := by
          rw [dirsSpec]
          apply flatMap_congr_fun
          intro d _
          rw [dirsSpec_stable ks (maxKeyLen ks) (maxKeyLen ks + 1) d (by omega) (by omega)]
        rw [hspec]
        exact hF
  obtain ⟨F, hF⟩ := aux (maxKeyLen ks + 1) pre (by omega)
  exact ⟨F, fun f hf => iterate_dirs_mono _ _ F f hf pre "" _ hF⟩

/-- Witness for C5 at the bucket `{a/b/c, a/d, e}`: the traversal from the
root stabilises on the depth-first pre-order sequence `[a/, a/b/]`. -/
theorem iterate_dirs_terminates_dfs_witness :
    ∃ F, ∀ f, F ≤ f →
      iterate_dirs (dirClientOfBucket ["a/b/c", "a/d", "e"]) "bkt" f "" "" =
        .ok ["a/", "a/b/"] := by
  obtain ⟨F, hF⟩ := iterate_dirs_terminates_dfs ["a/b/c", "a/d", "e"] "bkt" ""
  exact ⟨F, fun f hf => (hF f hf).trans (by rfl)⟩
